import Mathlib

/-!
Shallow embedding of `src/watermark_folder.py`, a tool that walks a source
folder, overlays a watermark stamp page on every page of every PDF found,
copies every other file verbatim, and mirrors the tree to an output folder.

The pypdf / reportlab library boundary (PDF parsing, page compositing, text
rendering) is treated as opaque: an abstract `PdfLib` supplies `parse`,
`merge` (for `page.merge_transformed_page`) and the rendered stamp page.
Everything the script itself computes — the transformation matrix, the
extension-based dispatch, the processing loops, the temp-file lifecycle —
is embedded faithfully from the source.
-/

namespace WatermarkFolder

/-- pypdf `Transformation`: an affine map stored as the 6-tuple ctm
`(a, b, c, d, e, f)`, i.e. the 3x3 matrix rows `(a b 0) (c d 0) (e f 1)`.
Coordinates are modelled as rationals. -/
structure Transformation where
  a : ℚ
  b : ℚ
  c : ℚ
  d : ℚ
  e : ℚ
  f : ℚ
deriving DecidableEq, Repr

/-- pypdf `Transformation()` default ctm `(1, 0, 0, 1, 0, 0)` (identity). -/
def Transformation.default : Transformation := ⟨1, 0, 0, 1, 0, 0⟩

/-- pypdf `matrix_multiply(self.matrix, op.matrix)` compressed back to a ctm:
the product of the two 3x3 matrices `(t.a t.b 0; t.c t.d 0; t.e t.f 1)` and
`(u.a u.b 0; u.c u.d 0; u.e u.f 1)`. -/
def Transformation.mulMatrix (t u : Transformation) : Transformation :=
  ⟨t.a * u.a + t.b * u.c, t.a * u.b + t.b * u.d,
   t.c * u.a + t.d * u.c, t.c * u.b + t.d * u.d,
   t.e * u.a + t.f * u.c + u.e, t.e * u.b + t.f * u.d + u.f⟩

/-- pypdf `Transformation.scale(sx, sy)`: right-multiplies the current ctm by
the scaling ctm `(sx, 0, 0, sy, 0, 0)`. -/
def Transformation.scale (t : Transformation) (sx sy : ℚ) : Transformation :=
  t.mulMatrix ⟨sx, 0, 0, sy, 0, 0⟩

/-- A PDF page as the script observes it: its mediabox width and height
(floats in the source, rationals here) and an abstract content id standing
for the page's graphical content. -/
structure Page where
  width : ℚ
  height : ℚ
  content : ℕ
deriving DecidableEq, Repr

/-- `scale_stamp_to_page(stamp_page, content_page)` from the source:
reads the two mediaboxes, returns `Transformation()` if the stamp width or
height is not positive, else `Transformation().scale(cw / sw, ch / sh)`. -/
def scale_stamp_to_page (stamp_page content_page : Page) : Transformation :=
  let sw := stamp_page.width
  let sh := stamp_page.height
  let cw := content_page.width
  let ch := content_page.height
  if sw ≤ 0 ∨ sh ≤ 0 then
    Transformation.default
  else
    Transformation.default.scale (cw / sw) (ch / sh)

/-- ASCII lowercasing of one character, as Python `str.lower` acts on the
ASCII range (the only range the `".pdf"` comparison can ever match). -/
def lowerChar (ch : Char) : Char :=
  if 'A' ≤ ch ∧ ch ≤ 'Z' then Char.ofNat (ch.toNat + 32) else ch

/-- Index of the last `'.'` in a character list, starting the count at
`idx`: the recursion behind Python's `name.rfind('.')`. -/
def rfindDotAux : List Char → ℕ → Option ℕ
  | [], _ => none
  | ch :: rest, idx =>
    match rfindDotAux rest (idx + 1) with
    | some j => some j
    | none => if ch = '.' then some idx else none

/-- Python `pathlib.PurePath.suffix` on a file name: the substring from the
last dot, but only when that dot is neither the first nor the last
character; otherwise the empty suffix. -/
def pySuffix (name : List Char) : List Char :=
  match rfindDotAux name 0 with
  | some i => if 0 < i ∧ i + 1 < name.length then name.drop i else []
  | none => []

/-- A regular file found under the source root: directory components of its
relative path, its file name, its byte content, and abstract metadata
(timestamps, permissions — what `shutil.copy2` preserves). -/
structure SrcFile where
  dir : List String
  name : String
  bytes : List ℕ
  meta : ℕ
deriving DecidableEq, Repr

/-- The file's path relative to the source root, which is also its output
path relative to the output root (`OUTPUT_FOLDER / rel`). -/
def relPath (fl : SrcFile) : List String := fl.dir ++ [fl.name]

/-- `p.suffix.lower() == ".pdf"`: the dispatch test of `main`. -/
def isPdf (fl : SrcFile) : Bool :=
  decide (List.map lowerChar (pySuffix fl.name.data) = ".pdf".data)

/-- `pdf_files = [p for p in all_files if p.suffix.lower() == ".pdf"]`. -/
def pdfFilesOf (files : List SrcFile) : List SrcFile := files.filter isPdf

/-- `other_files = [p for p in all_files if p not in pdf_files]`. -/
def otherFilesOf (files : List SrcFile) : List SrcFile :=
  files.filter (fun p => decide (p ∉ pdfFilesOf files))

/-- The opaque pypdf / reportlab boundary: `parse` is `PdfReader` on a byte
string (which may fail to parse), `merge` is
`page.merge_transformed_page(stamp_page, transform, over=True)` returning the
composited page, and `stamp` is the page produced by `create_watermark_pdf`
followed by `PdfReader(tmp_path).pages[0]`. -/
structure PdfLib where
  parse : List ℕ → Except Unit (List Page)
  merge : Page → Page → Transformation → Page
  stamp : Page

/-- The environment a run executes in: the PDF library, which output paths
the filesystem lets the run create and write (covering `mkdir` and `open`
failures: permissions, disk full), and whether writing the transient stamp
PDF succeeds. -/
structure World where
  lib : PdfLib
  writable : List String → Bool
  stampOk : Bool

/-- The errors `main` can propagate: the `SystemExit` for a missing source
folder, an IO failure while generating the stamp, a pypdf parse failure on
one input (tagged with its relative path), and a failed write of one output
(tagged with its relative path). -/
inductive RunError where
  | configError : RunError
  | stampError : RunError
  | readError : List String → RunError
  | writeError : List String → RunError
deriving DecidableEq, Repr

/-- Content of a file written under the output root: either a PDF document
assembled by `PdfWriter` (serialization is the library's concern), or the
raw bytes plus metadata that `shutil.copy2` transfers. -/
inductive OutContent where
  | pdfDoc : List Page → OutContent
  | raw : List ℕ → ℕ → OutContent
deriving DecidableEq, Repr

/-- All prefixes of a path, shortest first: the set of directories
`Path.mkdir(parents=True, exist_ok=True)` guarantees to exist. -/
def pathPrefixes : List String → List (List String)
  | [] => [[]]
  | comp :: rest => [] :: (pathPrefixes rest).map (comp :: ·)

/-- One iteration of the page loop of `watermark_pdf`: merge a copy of the
stamp page onto the current page with the computed scale transform. -/
def mergedPage (lib : PdfLib) (stamp_page page : Page) : Page :=
  lib.merge page stamp_page (scale_stamp_to_page stamp_page page)

/-- The output document `watermark_pdf` accumulates in its `PdfWriter`: one
merged page per input page, in document order. -/
def mergedDoc (lib : PdfLib) (stamp_page : Page) (pages : List Page) : List Page :=
  pages.map (mergedPage lib stamp_page)

/-- `watermark_pdf(input_path, output_path, stamp_page)`: parse the input
(propagating a parse failure before any directory is created), merge the
stamp onto every page, create the output parent directories, then write the
document (propagating a write failure). Returns the directories ensured to
exist and either the written output entry or the propagated error. -/
def watermark_pdf (w : World) (stamp_page : Page) (input : SrcFile) :
    List (List String) × Except RunError (List String × OutContent) :=
  match w.lib.parse input.bytes with
  | .error _ => ([], .error (.readError (relPath input)))
  | .ok pages =>
    (pathPrefixes (relPath input).dropLast,
     if w.writable (relPath input) then
       .ok (relPath input, .pdfDoc (mergedDoc w.lib stamp_page pages))
     else
       .error (.writeError (relPath input)))

/-- The non-PDF branch of `main`'s loop:
`out_path.parent.mkdir(parents=True, exist_ok=True)` then
`shutil.copy2(other_path, out_path)`, which copies bytes and metadata. -/
def copyOther (w : World) (input : SrcFile) :
    List (List String) × Except RunError (List String × OutContent) :=
  (pathPrefixes (relPath input).dropLast,
   if w.writable (relPath input) then
     .ok (relPath input, .raw input.bytes input.meta)
   else
     .error (.writeError (relPath input)))

/-- Sequential per-file loop: run `step` on each file in order; the first
error aborts the loop (nothing after it is processed), keeping the
directories and output entries produced so far. Returns (directories
ensured, output entries written, error if any). -/
def processFiles (step : SrcFile → List (List String) × Except RunError (List String × OutContent)) :
    List SrcFile → List (List String) × List (List String × OutContent) × Option RunError
  | [] => ([], [], none)
  | fl :: rest =>
    let st := step fl
    match st.2 with
    | .error er => (st.1, [], some er)
    | .ok entry =>
      let r := processFiles step rest
      (st.1 ++ r.1, entry :: r.2.1, r.2.2)

/-- The body of `main`'s `try` block after the stamp exists: the PDF loop
runs first and an error in it prevents the copy loop from running at all. -/
def runPhases (w : World) (stamp_page : Page) (pdfs others : List SrcFile) :
    List (List String) × List (List String × OutContent) × Option RunError :=
  match processFiles (watermark_pdf w stamp_page) pdfs with
  | (d1, o1, some er) => (d1, o1, some er)
  | (d1, o1, none) =>
    let r := processFiles (copyOther w) others
    (d1 ++ r.1, o1 ++ r.2.1, r.2.2)

/-- What the run observes of the source tree: whether `SOURCE_FOLDER` is a
directory, and the regular files `rglob("*")` enumerates under it. -/
structure SourceFS where
  isDir : Bool
  files : List SrcFile

/-- Observable outcome of a run of `main`: normal return or propagated
error, the output files fully written (relative path and content), the
output directories created, whether the transient stamp file was ever
created, whether it still exists when `main` returns, and whether the
"No files found" message was printed. -/
structure Outcome where
  result : Except RunError Unit
  outputs : List (List String × OutContent)
  dirs : List (List String)
  tmpCreated : Bool
  tmpExists : Bool
  noFilesMsg : Bool

/-- `main()`: abort with `SystemExit` if the source folder is not a
directory; enumerate and classify the files; report and return if none;
otherwise create the transient stamp file, generate the stamp, watermark
every PDF then copy every other file, and in all of those cases delete the
transient file in the `finally` block (`unlink(missing_ok=True)`). -/
def runMain (w : World) (fs : SourceFS) : Outcome :=
  if fs.isDir then
    let all_files := fs.files
    let pdf_files := pdfFilesOf all_files
    let other_files := otherFilesOf all_files
    if all_files.isEmpty then
      { result := .ok (), outputs := [], dirs := [],
        tmpCreated := false, tmpExists := false, noFilesMsg := true }
    else
      if w.stampOk then
        let r := runPhases w w.lib.stamp pdf_files other_files
        { result := match r.2.2 with
            | some er => .error er
            | none => .ok (),
          outputs := r.2.1, dirs := r.1,
          tmpCreated := true, tmpExists := false, noFilesMsg := false }
      else
        { result := .error .stampError, outputs := [], dirs := [],
          tmpCreated := true, tmpExists := false, noFilesMsg := false }
  else
    { result := .error .configError, outputs := [], dirs := [],
      tmpCreated := false, tmpExists := false, noFilesMsg := false }

/-- The step `main` applies to one file of the processing sequence
`pdf_files ++ other_files`: watermark it if it is classified as a PDF,
copy it otherwise. -/
def dispatchStep (w : World) (stamp_page : Page) (fl : SrcFile) :
    List (List String) × Except RunError (List String × OutContent) :=
  if isPdf fl then watermark_pdf w stamp_page fl else copyOther w fl

/-! Concrete instances of the opaque library boundary, used to exercise the
embedding on closed inputs. `parse` fails exactly on the byte string `[9]`
and otherwise yields a fixed two-page document; `merge` combines the two
pages' content ids. -/

/-- A concrete PDF library: `[9]` is an unparsable byte string, everything
else parses to a fixed two-page document. -/
def libW : PdfLib where
  parse := fun bs => if bs = [9] then .error () else .ok [⟨10, 20, 0⟩, ⟨5, 5, 1⟩]
  merge := fun pg st _ => ⟨pg.width, pg.height, pg.content * 10 + st.content⟩
  stamp := ⟨2, 4, 7⟩

/-- A fully permissive world: everything writable, stamp generation works. -/
def wW : World := ⟨libW, fun _ => true, true⟩

/-- A world whose library fails to parse every byte string. -/
def wBadParse : World := ⟨{ libW with parse := fun _ => .error () }, fun _ => true, true⟩

/-- An uppercase-extension PDF in a subdirectory. -/
def fpdfW : SrcFile := ⟨["sub"], "c.PDF", [1, 2], 5⟩

/-- A non-PDF file. -/
def fjpgW : SrcFile := ⟨[], "b.jpg", [3, 4], 6⟩

/-- A file whose entire name is ".pdf". -/
def fdotW : SrcFile := ⟨[], ".pdf", [8], 9⟩

/-- A PDF whose bytes `libW` refuses to parse. -/
def fbadW : SrcFile := ⟨[], "d.pdf", [9], 1⟩

/-- A small mixed source tree. -/
def filesW : List SrcFile := [fpdfW, fjpgW, fdotW]

/-- The source filesystem holding `filesW`. -/
def fsW : SourceFS := ⟨true, filesW⟩

/-- A source tree whose second PDF fails to parse under `libW`. -/
def fsBadW : SourceFS := ⟨true, [fpdfW, fbadW, fjpgW]⟩

/-! ### Library of facts about the embedding -/

theorem mem_pdfFilesOf {files : List SrcFile} {fl : SrcFile} :
    fl ∈ pdfFilesOf files ↔ fl ∈ files ∧ isPdf fl = true := by
  simp [pdfFilesOf, List.mem_filter]

theorem mem_otherFilesOf {files : List SrcFile} {fl : SrcFile} :
    fl ∈ otherFilesOf files ↔ fl ∈ files ∧ isPdf fl = false := by
  simp only [otherFilesOf, List.mem_filter, decide_eq_true_eq, mem_pdfFilesOf]
  constructor
  · rintro ⟨h1, h2⟩
    refine ⟨h1, ?_⟩
    cases hc : isPdf fl
    · rfl
    · exact absurd ⟨h1, hc⟩ h2
  · rintro ⟨h1, h2⟩
    exact ⟨h1, fun hc => by simp [h2] at hc⟩

theorem otherFilesOf_eq_filter (files : List SrcFile) :
    otherFilesOf files = files.filter (fun fl => !(isPdf fl)) := by
  unfold otherFilesOf
  refine List.filter_congr ?_
  intro fl hfl
  cases hc : isPdf fl
  · simp [mem_pdfFilesOf, hc]
  · simp [mem_pdfFilesOf, hc, hfl]

theorem pdf_other_perm (files : List SrcFile) :
    (pdfFilesOf files ++ otherFilesOf files).Perm files := by
  rw [otherFilesOf_eq_filter]
  exact List.filter_append_perm isPdf files

theorem processFiles_cons_ok {step} {fl : SrcFile} {rest : List SrcFile}
    {y : List String × OutContent} (h : (step fl).2 = Except.ok y) :
    processFiles step (fl :: rest) =
      ((step fl).1 ++ (processFiles step rest).1,
       y :: (processFiles step rest).2.1,
       (processFiles step rest).2.2) := by
  simp [processFiles, h]

theorem processFiles_cons_err {step} {fl : SrcFile} {rest : List SrcFile}
    {er : RunError} (h : (step fl).2 = Except.error er) :
    processFiles step (fl :: rest) = ((step fl).1, [], some er) := by
  simp [processFiles, h]

theorem processFiles_ok_of_none {step} {l : List SrcFile}
    (h : (processFiles step l).2.2 = none) :
    ∀ fl ∈ l, ∃ y, (step fl).2 = Except.ok y := by
  induction l with
  | nil => intro fl hfl; simp at hfl
  | cons fl rest ih =>
    intro g hg
    cases hst : (step fl).2 with
    | error er =>
      rw [processFiles_cons_err hst] at h
      simp at h
    | ok y =>
      rw [processFiles_cons_ok hst] at h
      rcases List.mem_cons.mp hg with rfl | hg'
      · exact ⟨y, hst⟩
      · exact ih h g hg'

theorem processFiles_none_outputs {step} {l : List SrcFile}
    (h : (processFiles step l).2.2 = none) :
    (processFiles step l).2.1 = l.filterMap (fun g => ((step g).2).toOption) := by
  induction l with
  | nil => simp [processFiles]
  | cons fl rest ih =>
    cases hst : (step fl).2 with
    | error er =>
      rw [processFiles_cons_err hst] at h
      simp at h
    | ok y =>
      rw [processFiles_cons_ok hst] at h ⊢
      simp [ih h, hst, Except.toOption]

theorem processFiles_out_mem {step} {l : List SrcFile} {fl : SrcFile}
    {y : List String × OutContent}
    (h : (processFiles step l).2.2 = none) (hf : fl ∈ l)
    (hy : (step fl).2 = Except.ok y) :
    y ∈ (processFiles step l).2.1 := by
  induction l with
  | nil => simp at hf
  | cons g rest ih =>
    cases hst : (step g).2 with
    | error er =>
      rw [processFiles_cons_err hst] at h
      simp at h
    | ok z =>
      rw [processFiles_cons_ok hst]
      rcases List.mem_cons.mp hf with rfl | hf'
      · rw [hst] at hy
        simp at hy
        simp [hy]
      · rw [processFiles_cons_ok hst] at h
        exact List.mem_cons_of_mem _ (ih h hf')

theorem processFiles_dirs_mem {step} {l : List SrcFile} {fl : SrcFile}
    {d : List String}
    (h : (processFiles step l).2.2 = none) (hf : fl ∈ l)
    (hd : d ∈ (step fl).1) :
    d ∈ (processFiles step l).1 := by
  induction l with
  | nil => simp at hf
  | cons g rest ih =>
    cases hst : (step g).2 with
    | error er =>
      rw [processFiles_cons_err hst] at h
      simp at h
    | ok z =>
      rw [processFiles_cons_ok hst] at h ⊢
      rcases List.mem_cons.mp hf with rfl | hf'
      · exact List.mem_append_left _ hd
      · exact List.mem_append_right _ (ih h hf')

theorem processFiles_append_ok {step} {l1 : List SrcFile} (l2 : List SrcFile)
    (h : ∀ g ∈ l1, ∃ y, (step g).2 = Except.ok y) :
    processFiles step (l1 ++ l2) =
      ((l1.map (fun g => (step g).1)).flatten ++ (processFiles step l2).1,
       l1.filterMap (fun g => ((step g).2).toOption) ++ (processFiles step l2).2.1,
       (processFiles step l2).2.2) := by
  induction l1 with
  | nil => simp
  | cons g rest ih =>
    obtain ⟨y, hy⟩ := h g (List.mem_cons_self g rest)
    rw [List.cons_append, processFiles_cons_ok hy,
        ih (fun g' hg' => h g' (List.mem_cons_of_mem _ hg'))]
    simp [hy, Except.toOption]

theorem processFiles_all_ok {step} {l : List SrcFile}
    (h : ∀ g ∈ l, ∃ y, (step g).2 = Except.ok y) :
    processFiles step l =
      ((l.map (fun g => (step g).1)).flatten,
       l.filterMap (fun g => ((step g).2).toOption),
       none) := by
  have h2 := processFiles_append_ok ([] : List SrcFile) h
  simpa [processFiles] using h2

theorem watermark_pdf_ok_path {w : World} {st : Page} {fl : SrcFile}
    {y : List String × OutContent}
    (h : (watermark_pdf w st fl).2 = Except.ok y) : y.1 = relPath fl := by
  cases hp : w.lib.parse fl.bytes with
  | error e => simp [watermark_pdf, hp] at h
  | ok pages =>
    simp only [watermark_pdf, hp] at h
    by_cases hw : w.writable (relPath fl) = true
    · simp [hw] at h
      simp [← h]
    · simp [hw] at h

theorem copyOther_ok_val {w : World} {fl : SrcFile}
    {y : List String × OutContent}
    (h : (copyOther w fl).2 = Except.ok y) :
    y = (relPath fl, OutContent.raw fl.bytes fl.meta) := by
  by_cases hw : w.writable (relPath fl) = true
  · simp [copyOther, hw] at h
    exact h.symm
  · simp [copyOther, hw] at h

theorem dispatchStep_on_pdf {w : World} {st : Page} {fl : SrcFile}
    (h : isPdf fl = true) : dispatchStep w st fl = watermark_pdf w st fl := by
  simp [dispatchStep, h]

theorem dispatchStep_on_other {w : World} {st : Page} {fl : SrcFile}
    (h : isPdf fl = false) : dispatchStep w st fl = copyOther w fl := by
  simp [dispatchStep, h]

theorem dispatchStep_ok_path {w : World} {st : Page} {fl : SrcFile}
    {y : List String × OutContent}
    (h : (dispatchStep w st fl).2 = Except.ok y) : y.1 = relPath fl := by
  cases hc : isPdf fl
  · rw [dispatchStep_on_other hc] at h
    rw [copyOther_ok_val h]
  · rw [dispatchStep_on_pdf hc] at h
    exact watermark_pdf_ok_path h

theorem runPhases_eq_err {w : World} {st : Page} {pdfs : List SrcFile}
    (others : List SrcFile) {d1 : List (List String)}
    {o1 : List (List String × OutContent)} {er : RunError}
    (h : processFiles (watermark_pdf w st) pdfs = (d1, o1, some er)) :
    runPhases w st pdfs others = (d1, o1, some er) := by
  simp [runPhases, h]

theorem runPhases_eq_ok {w : World} {st : Page} {pdfs : List SrcFile}
    (others : List SrcFile) {d1 : List (List String)}
    {o1 : List (List String × OutContent)}
    (h : processFiles (watermark_pdf w st) pdfs = (d1, o1, none)) :
    runPhases w st pdfs others =
      (d1 ++ (processFiles (copyOther w) others).1,
       o1 ++ (processFiles (copyOther w) others).2.1,
       (processFiles (copyOther w) others).2.2) := by
  simp [runPhases, h]

theorem runMain_proc {w : World} {fs : SourceFS}
    (hd : fs.isDir = true) (hne : fs.files.isEmpty = false)
    (hs : w.stampOk = true) :
    runMain w fs =
      { result :=
          match (runPhases w w.lib.stamp (pdfFilesOf fs.files) (otherFilesOf fs.files)).2.2 with
          | some er => Except.error er
          | none => Except.ok (),
        outputs := (runPhases w w.lib.stamp (pdfFilesOf fs.files) (otherFilesOf fs.files)).2.1,
        dirs := (runPhases w w.lib.stamp (pdfFilesOf fs.files) (otherFilesOf fs.files)).1,
        tmpCreated := true, tmpExists := false, noFilesMsg := false } := by
  simp [runMain, hd, hne, hs]

theorem filterMap_toOption_paths
    {step : SrcFile → List (List String) × Except RunError (List String × OutContent)}
    {l : List SrcFile}
    (hok : ∀ g ∈ l, ∃ y, (step g).2 = Except.ok y)
    (hpath : ∀ g ∈ l, ∀ y, (step g).2 = Except.ok y → y.1 = relPath g) :
    (l.filterMap (fun g => ((step g).2).toOption)).map Prod.fst = l.map relPath := by
  induction l with
  | nil => simp
  | cons g rest ih =>
    obtain ⟨y, hy⟩ := hok g (List.mem_cons_self g rest)
    have hto : (fun g' => ((step g').2).toOption) g = some y := by
      show ((step g).2).toOption = some y
      rw [hy]
      rfl
    rw [List.filterMap_cons_some (f := fun g' => ((step g').2).toOption) hto,
        List.map_cons, List.map_cons,
        hpath g (List.mem_cons_self g rest) y hy,
        ih (fun g' h' => hok g' (List.mem_cons_of_mem _ h'))
          (fun g' h' => hpath g' (List.mem_cons_of_mem _ h'))]

/-! ### Claim theorems -/

/-- C5: `scale_stamp_to_page` returns the pure scale transform with
horizontal factor `target.width / stamp.width` and vertical factor
`target.height / stamp.height` and no rotation or translation components
when the stamp's dimensions are both strictly positive, and the identity
transform when the stamp's width or height is zero or negative (the
division is guarded by that test). -/
theorem scale_stamp_to_page_spec (sp cp : Page) :
    (0 < sp.width → 0 < sp.height →
      scale_stamp_to_page sp cp =
        ⟨cp.width / sp.width, 0, 0, cp.height / sp.height, 0, 0⟩) ∧
    (sp.width ≤ 0 ∨ sp.height ≤ 0 →
      scale_stamp_to_page sp cp = Transformation.default) := by
  constructor
  · intro h1 h2
    have hcond : ¬(sp.width ≤ 0 ∨ sp.height ≤ 0) := by
      push_neg
      exact ⟨h1, h2⟩
    simp only [scale_stamp_to_page, if_neg hcond, Transformation.scale,
      Transformation.mulMatrix, Transformation.default]
    simp
  · intro h
    simp only [scale_stamp_to_page, if_pos h]

/-- Witness for C5: a 1x1 stamp scaled to a 5x7 page gives the pure
(5, 7) scale; a zero-width stamp gives the identity. -/
theorem scale_stamp_to_page_spec_witness :
    (0 : ℚ) < 1 ∧
    scale_stamp_to_page ⟨1, 1, 0⟩ ⟨5, 7, 1⟩ = ⟨5 / 1, 0, 0, 7 / 1, 0, 0⟩ ∧
    scale_stamp_to_page ⟨0, 4, 0⟩ ⟨5, 7, 1⟩ = Transformation.default :=
  ⟨by decide,
   (scale_stamp_to_page_spec ⟨1, 1, 0⟩ ⟨5, 7, 1⟩).1 (by decide) (by decide),
   (scale_stamp_to_page_spec ⟨0, 4, 0⟩ ⟨5, 7, 1⟩).2 (Or.inl (by decide))⟩

/-- C7: when the source folder is not an existing directory, the run stops
with the configuration error before any processing: no output file or
directory is created, no stamp or transient file is generated, and the
"no files" report is not reached. -/
theorem missing_source_aborts (w : World) (fs : SourceFS)
    (hd : fs.isDir = false) :
    runMain w fs =
      { result := Except.error RunError.configError, outputs := [], dirs := [],
        tmpCreated := false, tmpExists := false, noFilesMsg := false } := by
  simp [runMain, hd]

/-- Witness for C7 at a concrete non-directory source. -/
theorem missing_source_aborts_witness :
    (SourceFS.mk false filesW).isDir = false ∧
    runMain wW ⟨false, filesW⟩ =
      { result := Except.error RunError.configError, outputs := [], dirs := [],
        tmpCreated := false, tmpExists := false, noFilesMsg := false } :=
  ⟨rfl, missing_source_aborts wW ⟨false, filesW⟩ rfl⟩

/-- C9: a run over an empty source tree reports "no files found", creates
no transient stamp file, writes no output file or directory, and returns
normally. -/
theorem empty_source_no_work (w : World) (fs : SourceFS)
    (hd : fs.isDir = true) (he : fs.files = []) :
    runMain w fs =
      { result := Except.ok (), outputs := [], dirs := [],
        tmpCreated := false, tmpExists := false, noFilesMsg := true } := by
  simp [runMain, hd, he]

/-- Witness for C9 at a concrete empty source tree. -/
theorem empty_source_no_work_witness :
    (SourceFS.mk true []).isDir = true ∧ (SourceFS.mk true []).files = [] ∧
    runMain wW ⟨true, []⟩ =
      { result := Except.ok (), outputs := [], dirs := [],
        tmpCreated := false, tmpExists := false, noFilesMsg := true } :=
  ⟨rfl, rfl, empty_source_no_work wW ⟨true, []⟩ rfl rfl⟩

/-- C6: the transient stamp file is created exactly when the source is a
directory holding at least one file, and on every exit path — success or
any error during stamp generation, watermarking or copying — it no longer
exists when `main` returns. -/
theorem tmp_always_cleaned (w : World) (fs : SourceFS) :
    (runMain w fs).tmpExists = false ∧
    ((runMain w fs).tmpCreated = true ↔ fs.isDir = true ∧ fs.files ≠ []) := by
  cases hd : fs.isDir with
  | false => simp [runMain, hd]
  | true =>
    cases hne : fs.files.isEmpty with
    | true =>
      have he : fs.files = [] := List.isEmpty_iff.mp (by simp [hne])
      simp [runMain, hd, hne, he]
    | false =>
      have he : fs.files ≠ [] := List.isEmpty_eq_false.mp hne
      cases hs : w.stampOk with
      | false => simp [runMain, hd, hne, hs, he]
      | true => simp [runMain, hd, hne, hs, he]

/-- C2: the dispatcher routes a file to the watermark list exactly when the
lower-cased `pathlib` suffix of its name is `".pdf"`, to the copy list
exactly otherwise, and the two routes partition the enumerated files: every
file takes one route and no file takes both. -/
theorem dispatch_partition (files : List SrcFile) (fl : SrcFile)
    (hf : fl ∈ files) :
    (fl ∈ pdfFilesOf files ↔ List.map lowerChar (pySuffix fl.name.data) = ".pdf".data) ∧
    (fl ∈ otherFilesOf files ↔ List.map lowerChar (pySuffix fl.name.data) ≠ ".pdf".data) ∧
    ¬(fl ∈ pdfFilesOf files ∧ fl ∈ otherFilesOf files) ∧
    (fl ∈ pdfFilesOf files ∨ fl ∈ otherFilesOf files) := by
  have hpdf : fl ∈ pdfFilesOf files ↔ isPdf fl = true := by
    rw [mem_pdfFilesOf]
    simp [hf]
  have hoth : fl ∈ otherFilesOf files ↔ isPdf fl = false := by
    rw [mem_otherFilesOf]
    simp [hf]
  have hsuf : isPdf fl = true ↔
      List.map lowerChar (pySuffix fl.name.data) = ".pdf".data := by
    simp [isPdf]
  refine ⟨hpdf.trans hsuf, ?_, ?_, ?_⟩
  · rw [hoth]
    constructor
    · intro hno hx
      rw [← hsuf] at hx
      rw [hno] at hx
      exact Bool.false_ne_true hx
    · intro hne
      cases hc : isPdf fl
      · rfl
      · exact absurd (hsuf.mp hc) hne
  · rintro ⟨h1, h2⟩
    rw [hpdf] at h1
    rw [hoth] at h2
    simp [h1] at h2
  · cases hc : isPdf fl
    · exact Or.inr (hoth.mpr hc)
    · exact Or.inl (hpdf.mpr hc)

/-- Witness for C2 at a file with an uppercase `.PDF` extension inside the
concrete tree `filesW`. -/
theorem dispatch_partition_witness :
    fpdfW ∈ filesW ∧
    (fpdfW ∈ pdfFilesOf filesW ↔ List.map lowerChar (pySuffix fpdfW.name.data) = ".pdf".data) ∧
    (fpdfW ∈ otherFilesOf filesW ↔ List.map lowerChar (pySuffix fpdfW.name.data) ≠ ".pdf".data) ∧
    ¬(fpdfW ∈ pdfFilesOf filesW ∧ fpdfW ∈ otherFilesOf filesW) ∧
    (fpdfW ∈ pdfFilesOf filesW ∨ fpdfW ∈ otherFilesOf filesW) :=
  ⟨by decide, dispatch_partition filesW fpdfW (by decide)⟩

/-- C3: on an input that parses to document `doc`, `watermark_pdf` builds
the output document as one merged page per input page in document order
(`mergedDoc` is a map over the pages), so the output page count equals the
input page count, and writes it at the file's relative path. -/
theorem watermark_preserves_page_count (w : World) (st : Page) (fl : SrcFile)
    (doc : List Page)
    (hp : w.lib.parse fl.bytes = Except.ok doc)
    (hw : w.writable (relPath fl) = true) :
    (watermark_pdf w st fl).2 =
      Except.ok (relPath fl, OutContent.pdfDoc (mergedDoc w.lib st doc)) ∧
    (mergedDoc w.lib st doc).length = doc.length ∧
    ∀ i : ℕ, (mergedDoc w.lib st doc)[i]? = (doc[i]?).map (mergedPage w.lib st) := by
  refine ⟨?_, ?_, ?_⟩
  · simp [watermark_pdf, hp, hw, mergedDoc]
  · simp [mergedDoc]
  · intro i
    simp [mergedDoc, List.getElem?_map]

/-- Witness for C3: `libW` parses `fpdfW` to a concrete two-page document,
and the merged output also has two pages. -/
theorem watermark_preserves_page_count_witness :
    wW.lib.parse fpdfW.bytes = Except.ok [⟨10, 20, 0⟩, ⟨5, 5, 1⟩] ∧
    wW.writable (relPath fpdfW) = true ∧
    (watermark_pdf wW wW.lib.stamp fpdfW).2 =
      Except.ok (relPath fpdfW,
        OutContent.pdfDoc (mergedDoc wW.lib wW.lib.stamp [⟨10, 20, 0⟩, ⟨5, 5, 1⟩])) ∧
    (mergedDoc wW.lib wW.lib.stamp [⟨10, 20, 0⟩, ⟨5, 5, 1⟩]).length = 2 :=
  ⟨rfl, rfl,
   (watermark_preserves_page_count wW wW.lib.stamp fpdfW [⟨10, 20, 0⟩, ⟨5, 5, 1⟩] rfl rfl).1,
   (watermark_preserves_page_count wW wW.lib.stamp fpdfW [⟨10, 20, 0⟩, ⟨5, 5, 1⟩] rfl rfl).2.1⟩

/-- C10: a file whose entire name is ".pdf" has an empty `pathlib` suffix,
so it is classified as non-PDF and a run copies its bytes verbatim instead
of watermarking it. -/
theorem dot_pdf_name_copied :
    pySuffix ".pdf".data = [] ∧
    isPdf fdotW = false ∧
    fdotW ∈ otherFilesOf [fdotW] ∧
    (runMain wW ⟨true, [fdotW]⟩).result = Except.ok () ∧
    (runMain wW ⟨true, [fdotW]⟩).outputs =
      [([".pdf"], OutContent.raw fdotW.bytes fdotW.meta)] :=
  ⟨by decide, by decide, by decide, rfl, by decide⟩

/-- C1: after a successful run, the multiset (hence the set) of relative
paths written under the output root equals the multiset of relative paths
of the regular files under the source root: every source file appears at
exactly its own relative path in the output tree. -/
theorem run_success_path_set (w : World) (fs : SourceFS)
    (h : (runMain w fs).result = Except.ok ()) :
    ((runMain w fs).outputs.map Prod.fst).Perm (fs.files.map relPath) ∧
    ∀ p, (p ∈ (runMain w fs).outputs.map Prod.fst ↔ p ∈ fs.files.map relPath) := by
  suffices hp : ((runMain w fs).outputs.map Prod.fst).Perm (fs.files.map relPath) by
    exact ⟨hp, fun p => hp.mem_iff⟩
  cases hd : fs.isDir with
  | false => simp [runMain, hd] at h
  | true =>
    cases hne : fs.files.isEmpty with
    | true =>
      have he : fs.files = [] := List.isEmpty_iff.mp (by simp [hne])
      simp [runMain, hd, hne, he]
    | false =>
      cases hs : w.stampOk with
      | false => simp [runMain, hd, hne, hs] at h
      | true =>
        rw [runMain_proc hd hne hs] at h ⊢
        rcases hr1 : processFiles (watermark_pdf w w.lib.stamp) (pdfFilesOf fs.files)
          with ⟨d1, o1, e1⟩
        cases e1 with
        | some er =>
          rw [runPhases_eq_err (otherFilesOf fs.files) hr1] at h
          simp at h
        | none =>
          rw [runPhases_eq_ok (otherFilesOf fs.files) hr1] at h ⊢
          revert h
          generalize hr2 : processFiles (copyOther w) (otherFilesOf fs.files) = t2
          obtain ⟨d2, o2, e2⟩ := t2
          intro h
          dsimp only at h ⊢
          cases e2 with
          | some er => simp at h
          | none =>
            have h1none : (processFiles (watermark_pdf w w.lib.stamp)
                (pdfFilesOf fs.files)).2.2 = none := by rw [hr1]
            have h2none : (processFiles (copyOther w)
                (otherFilesOf fs.files)).2.2 = none := by rw [hr2]
            have h1out := processFiles_none_outputs h1none
            have h2out := processFiles_none_outputs h2none
            rw [hr1] at h1out
            rw [hr2] at h2out
            simp only at h1out h2out
            have h1ok := processFiles_ok_of_none h1none
            have h2ok := processFiles_ok_of_none h2none
            have h1paths : (o1.map Prod.fst) = (pdfFilesOf fs.files).map relPath := by
              rw [h1out]
              exact filterMap_toOption_paths h1ok
                (fun g _ y hy => watermark_pdf_ok_path hy)
            have h2paths : (o2.map Prod.fst) = (otherFilesOf fs.files).map relPath := by
              rw [h2out]
              exact filterMap_toOption_paths h2ok
                (fun g _ y hy => by rw [copyOther_ok_val hy])
            rw [List.map_append, h1paths, h2paths, ← List.map_append]
            exact (pdf_other_perm fs.files).map relPath

/-- Witness for C1: on the concrete tree `filesW` the run succeeds and the
output path multiset matches the source path multiset. -/
theorem run_success_path_set_witness :
    (runMain wW fsW).result = Except.ok () ∧
    ((runMain wW fsW).outputs.map Prod.fst).Perm (fsW.files.map relPath) :=
  ⟨rfl, (run_success_path_set wW fsW rfl).1⟩

/-- C8: on a successful run, every non-PDF source file is copied to its own
relative path with byte content and metadata identical to the source's, and
every parent directory of that output path has been created. -/
theorem copy_is_verbatim (w : World) (fs : SourceFS) (fl : SrcFile)
    (h : (runMain w fs).result = Except.ok ())
    (hf : fl ∈ otherFilesOf fs.files) :
    (relPath fl, OutContent.raw fl.bytes fl.meta) ∈ (runMain w fs).outputs ∧
    ∀ d ∈ pathPrefixes ((relPath fl).dropLast), d ∈ (runMain w fs).dirs := by
  cases hd : fs.isDir with
  | false => simp [runMain, hd] at h
  | true =>
    cases hne : fs.files.isEmpty with
    | true =>
      have he : fs.files = [] := List.isEmpty_iff.mp (by simp [hne])
      rw [he] at hf
      simp [otherFilesOf] at hf
    | false =>
      cases hs : w.stampOk with
      | false => simp [runMain, hd, hne, hs] at h
      | true =>
        rw [runMain_proc hd hne hs] at h ⊢
        rcases hr1 : processFiles (watermark_pdf w w.lib.stamp) (pdfFilesOf fs.files)
          with ⟨d1, o1, e1⟩
        cases e1 with
        | some er =>
          rw [runPhases_eq_err (otherFilesOf fs.files) hr1] at h
          simp at h
        | none =>
          rw [runPhases_eq_ok (otherFilesOf fs.files) hr1] at h ⊢
          revert h
          generalize hr2 : processFiles (copyOther w) (otherFilesOf fs.files) = t2
          obtain ⟨d2, o2, e2⟩ := t2
          intro h
          dsimp only at h ⊢
          cases e2 with
          | some er => simp at h
          | none =>
            have h2none : (processFiles (copyOther w)
                (otherFilesOf fs.files)).2.2 = none := by rw [hr2]
            obtain ⟨y, hy⟩ := processFiles_ok_of_none h2none fl hf
            have hyv := copyOther_ok_val hy
            have hmem := processFiles_out_mem h2none hf hy
            rw [hr2] at hmem
            simp only at hmem
            constructor
            · exact List.mem_append_right o1 (hyv ▸ hmem)
            · intro d hdp
              have hdm : d ∈ (copyOther w fl).1 := hdp
              have hin := processFiles_dirs_mem h2none hf hdm
              rw [hr2] at hin
              simp only at hin
              exact List.mem_append_right d1 hin

/-- Witness for C8: on the concrete tree `filesW`, the non-PDF `fjpgW` is
copied with its bytes and metadata, and its (root) parent directory
exists. -/
theorem copy_is_verbatim_witness :
    (runMain wW fsW).result = Except.ok () ∧
    fjpgW ∈ otherFilesOf fsW.files ∧
    (relPath fjpgW, OutContent.raw fjpgW.bytes fjpgW.meta) ∈ (runMain wW fsW).outputs :=
  ⟨rfl, by decide, (copy_is_verbatim wW fsW fjpgW rfl (by decide)).1⟩

/-- C4: a parse or write failure on one file is not caught per-file: if the
processing sequence (PDFs first, then the others) is `pre ++ fl :: post`
with every file of `pre` succeeding and `fl` failing with error `er`, the
whole run propagates `er`, and the outputs are exactly the outputs of the
files before the failing one — files after it are never processed, and the
outputs already written stay as a successful run would have written them. -/
theorem run_abort_on_file_error (w : World) (fs : SourceFS)
    (pre : List SrcFile) (fl : SrcFile) (post : List SrcFile) (er : RunError)
    (hd : fs.isDir = true) (hne : fs.files.isEmpty = false) (hs : w.stampOk = true)
    (hseq : pdfFilesOf fs.files ++ otherFilesOf fs.files = pre ++ fl :: post)
    (hpre : ∀ g ∈ pre, ∃ y, (dispatchStep w w.lib.stamp g).2 = Except.ok y)
    (herr : (dispatchStep w w.lib.stamp fl).2 = Except.error er) :
    (runMain w fs).result = Except.error er ∧
    (runMain w fs).outputs =
      pre.filterMap (fun g => ((dispatchStep w w.lib.stamp g).2).toOption) := by
  have hpdfstep : ∀ g ∈ pdfFilesOf fs.files,
      dispatchStep w w.lib.stamp g = watermark_pdf w w.lib.stamp g :=
    fun g hg => dispatchStep_on_pdf (mem_pdfFilesOf.mp hg).2
  have hothstep : ∀ g ∈ otherFilesOf fs.files,
      dispatchStep w w.lib.stamp g = copyOther w g :=
    fun g hg => dispatchStep_on_other (mem_otherFilesOf.mp hg).2
  rw [runMain_proc hd hne hs]
  rcases List.append_eq_append_iff.mp hseq with ⟨a2, hpre_eq, hoth_eq⟩ |
    ⟨c2, hpdfs_eq, hrest⟩
  · -- the failing file sits in the copy phase, after `a2` successful copies
    have hpdfok : ∀ g ∈ pdfFilesOf fs.files, ∃ y,
        (watermark_pdf w w.lib.stamp g).2 = Except.ok y := by
      intro g hg
      obtain ⟨y, hy⟩ := hpre g (by rw [hpre_eq]; exact List.mem_append_left _ hg)
      exact ⟨y, by rw [← hpdfstep g hg]; exact hy⟩
    have hall1 := processFiles_all_ok hpdfok
    rw [runPhases_eq_ok (otherFilesOf fs.files) hall1]
    have ha2ok : ∀ g ∈ a2, ∃ y, (copyOther w g).2 = Except.ok y := by
      intro g hg
      have hgo : g ∈ otherFilesOf fs.files := by
        rw [hoth_eq]
        exact List.mem_append_left _ hg
      obtain ⟨y, hy⟩ := hpre g (by rw [hpre_eq]; exact List.mem_append_right _ hg)
      exact ⟨y, by rw [← hothstep g hgo]; exact hy⟩
    have hflo : fl ∈ otherFilesOf fs.files := by
      rw [hoth_eq]
      exact List.mem_append_right _ (List.mem_cons_self _ _)
    have hflerr : (copyOther w fl).2 = Except.error er := by
      rw [← hothstep fl hflo]
      exact herr
    have hcopy : processFiles (copyOther w) (otherFilesOf fs.files) =
        ((a2.map (fun g => (copyOther w g).1)).flatten ++ (copyOther w fl).1,
         a2.filterMap (fun g => ((copyOther w g).2).toOption),
         some er) := by
      rw [hoth_eq, processFiles_append_ok (fl :: post) ha2ok,
          processFiles_cons_err hflerr]
      simp
    rw [hcopy]
    refine ⟨rfl, ?_⟩
    rw [hpre_eq, List.filterMap_append]
    dsimp only
    congr 1
    · exact List.filterMap_congr (fun g hg => by rw [hpdfstep g hg])
    · refine List.filterMap_congr ?_
      intro g hg
      have hgo : g ∈ otherFilesOf fs.files := by
        rw [hoth_eq]
        exact List.mem_append_left _ hg
      rw [hothstep g hgo]
  · cases c2 with
    | nil =>
      -- the PDF phase is exactly `pre`; the failing file is the first other
      have hpdfs2 : pdfFilesOf fs.files = pre := by simpa using hpdfs_eq
      have hoth2 : otherFilesOf fs.files = fl :: post := by simpa using hrest.symm
      have hpdfok : ∀ g ∈ pdfFilesOf fs.files, ∃ y,
          (watermark_pdf w w.lib.stamp g).2 = Except.ok y := by
        intro g hg
        obtain ⟨y, hy⟩ := hpre g (hpdfs2 ▸ hg)
        exact ⟨y, by rw [← hpdfstep g hg]; exact hy⟩
      have hall1 := processFiles_all_ok hpdfok
      rw [runPhases_eq_ok (otherFilesOf fs.files) hall1]
      have hflo : fl ∈ otherFilesOf fs.files := by
        rw [hoth2]
        exact List.mem_cons_self _ _
      have hflerr : (copyOther w fl).2 = Except.error er := by
        rw [← hothstep fl hflo]
        exact herr
      have hcopy : processFiles (copyOther w) (otherFilesOf fs.files) =
          ((copyOther w fl).1, [], some er) := by
        rw [hoth2, processFiles_cons_err hflerr]
      rw [hcopy]
      refine ⟨rfl, ?_⟩
      dsimp only
      rw [List.append_nil, hpdfs2]
      exact List.filterMap_congr
        (fun g hg => by rw [hpdfstep g (by rw [hpdfs2]; exact hg)])
    | cons fl2 c2' =>
      -- the failing file sits in the PDF phase, after `pre` successful PDFs
      rw [List.cons_append] at hrest
      have h1 : fl = fl2 := (List.cons_eq_cons.mp hrest).1
      rw [← h1] at hpdfs_eq
      have hflp : fl ∈ pdfFilesOf fs.files := by
        rw [hpdfs_eq]
        exact List.mem_append_right _ (List.mem_cons_self _ _)
      have hflerr : (watermark_pdf w w.lib.stamp fl).2 = Except.error er := by
        rw [← hpdfstep fl hflp]
        exact herr
      have hpreok : ∀ g ∈ pre, ∃ y,
          (watermark_pdf w w.lib.stamp g).2 = Except.ok y := by
        intro g hg
        have hgp : g ∈ pdfFilesOf fs.files := by
          rw [hpdfs_eq]
          exact List.mem_append_left _ hg
        obtain ⟨y, hy⟩ := hpre g hg
        exact ⟨y, by rw [← hpdfstep g hgp]; exact hy⟩
      have hproc : processFiles (watermark_pdf w w.lib.stamp) (pdfFilesOf fs.files) =
          ((pre.map (fun g => (watermark_pdf w w.lib.stamp g).1)).flatten ++
             (watermark_pdf w w.lib.stamp fl).1,
           pre.filterMap (fun g => ((watermark_pdf w w.lib.stamp g).2).toOption),
           some er) := by
        rw [hpdfs_eq, processFiles_append_ok (fl :: c2') hpreok,
            processFiles_cons_err hflerr]
        simp
      rw [runPhases_eq_err (otherFilesOf fs.files) hproc]
      refine ⟨rfl, ?_⟩
      exact List.filterMap_congr (fun g hg => by
        rw [hpdfstep g (by rw [hpdfs_eq]; exact List.mem_append_left _ hg)])

/-- Witness for C4: in `fsBadW` the unparsable `fbadW` aborts the run with
its read error; the previously watermarked `fpdfW` is the only output and
the copy of `fjpgW` never happens. -/
theorem run_abort_on_file_error_witness :
    (dispatchStep wW wW.lib.stamp fbadW).2 =
      Except.error (RunError.readError ["d.pdf"]) ∧
    (runMain wW fsBadW).result = Except.error (RunError.readError ["d.pdf"]) ∧
    (runMain wW fsBadW).outputs =
      [fpdfW].filterMap (fun g => ((dispatchStep wW wW.lib.stamp g).2).toOption) := by
  have hmain := run_abort_on_file_error wW fsBadW [fpdfW] fbadW [fjpgW]
    (RunError.readError ["d.pdf"]) rfl rfl rfl (by decide)
    (by
      intro g hg
      rw [List.mem_singleton] at hg
      subst hg
      exact ⟨_, rfl⟩)
    rfl
  exact ⟨rfl, hmain.1, hmain.2⟩

end WatermarkFolder
